import Mathlib

/-!
Verification development for the expiration-determination engine of the
expire-sh repository (cert.go, whois.go, certexp.go).

Modelling conventions:
* Go strings handled at the byte level (the whois scan slices lines at byte
  offsets) are embedded as lists of natural numbers, one entry per UTF-8 byte.
* Timestamps (Go time.Time) are embedded as integers; the zero value of
  time.Time is 0, Before is integer less-than, IsZero is equality with 0.
* External collaborators (the dateparse.ParseAny date parser, the whois fetch,
  the TLS dial/handshake, publicsuffix.EffectiveTLDPlusOne, and the
  per-hostname/per-domain lookup outcomes) are parameters of the embedded
  functions; the repository's own control flow is translated literally.
* Go errors are embedded as Option String (none = nil error).
-/

namespace ExpireSh

/-- Bytes of a Go string, one natural number per UTF-8 byte. -/
abbrev GoStr := List Nat

/-- Byte list of an ASCII string literal (every character is a single byte;
only applied to ASCII literals in this development). -/
def asciiBytes (s : String) : GoStr := s.data.map Char.toNat

/-- Model of Go strings.ToLower (UTF-8, Unicode simple case mapping),
restricted to the byte sequences appearing in this development: ASCII bytes,
U+0130 (C4 B0, maps to the one-byte U+0069) and U+023A (C8 BA, maps to the
three-byte U+2C65 = E2 B1 A5).  On those inputs it agrees exactly with Go. -/
def goToLowerFrag : GoStr → GoStr
  | [] => []
  | 0xC4 :: 0xB0 :: rest => 0x69 :: goToLowerFrag rest
  | 0xC8 :: 0xBA :: rest => 0xE2 :: 0xB1 :: 0xA5 :: goToLowerFrag rest
  | b :: rest => (if 65 ≤ b ∧ b ≤ 90 then b + 32 else b) :: goToLowerFrag rest

/-- Model of Go strings.Contains: sub occurs contiguously inside s. -/
def goContains (s sub : GoStr) : Bool :=
  (List.range (s.length + 1)).any fun i => (s.drop i).take sub.length == sub

/-- The expirationKeywords list of whois.go, verbatim (all ASCII). -/
def expirationKeywords : List GoStr :=
  [asciiBytes "expiry",
   asciiBytes "expiration",
   asciiBytes "expires",
   asciiBytes "registered through",
   asciiBytes "expired",
   asciiBytes "expire",
   asciiBytes "expired",
   asciiBytes "domain_datebilleduntil",
   asciiBytes "paid-till",
   asciiBytes "renewal date",
   asciiBytes "fecha de vencimiento"]

/-- Outcome of the scanning loop of getDomainExpiration (whois.go lines
40-59): a successfully parsed date (early return), falling through to the
extraction-failure return (zero time plus error, with the raw body only
logged), or a Go runtime panic raised by an out-of-range string slice. -/
inductive ScanResult where
  | found (t : Int)
  | extractionFailed
  | panicked
deriving DecidableEq

/-- Inner loop of whois.go lines 45-53 for one line: try the byte offsets in
the given list, in order, slicing the original line at each offset exactly as
the Go expression s.Text()[i:] does — in Go a string slice s[i:] panics when
i exceeds len(s).  P is the external dateparse.ParseAny primitive. -/
def tryOffsetList (P : GoStr → Option Int) (orig : GoStr) : List Nat → ScanResult
  | [] => .extractionFailed
  | i :: rest =>
    if orig.length < i then .panicked
    else
      match P (orig.drop i) with
      | some t => .found t
      | none => tryOffsetList P orig rest

/-- Keyword loop of whois.go lines 43-55 for one line: for each keyword in
order, if the lower-cased line contains it, run the offset loop over offsets
0 ≤ i < len(lower-cased line); a parsed date returns immediately, a panic
propagates, and otherwise the next keyword is tried. -/
def tryKeywords (P : GoStr → Option Int) (orig lower : GoStr) :
    List GoStr → ScanResult
  | [] => .extractionFailed
  | kw :: rest =>
    if goContains lower kw then
      match tryOffsetList P orig (List.range lower.length) with
      | .found t => .found t
      | .panicked => .panicked
      | .extractionFailed => tryKeywords P orig lower rest
    else tryKeywords P orig lower rest

/-- Line loop of getDomainExpiration (whois.go lines 41-59): scan the body's
lines in order; tl is the external strings.ToLower primitive.  Falling off the
end is the extraction-failure return of lines 58-59. -/
def scanLines (P : GoStr → Option Int) (tl : GoStr → GoStr) :
    List GoStr → ScanResult
  | [] => .extractionFailed
  | l :: rest =>
    match tryKeywords P l (tl l) expirationKeywords with
    | .found t => .found t
    | .panicked => .panicked
    | .extractionFailed => scanLines P tl rest

/-- A line's lower-cased copy contains at least one of the keywords. -/
def keywordHit (lower : GoStr) : Bool :=
  expirationKeywords.any fun kw => goContains lower kw

/-- Scan semantics in the words of the claim: on a keyword match, a date parse
is attempted starting at every byte offset of the original line (all of which
are in bounds), and the first offset in line order that parses is returned. -/
def scanLinesSpecClaimed (P : GoStr → Option Int) (tl : GoStr → GoStr) :
    List GoStr → ScanResult
  | [] => .extractionFailed
  | l :: rest =>
    if keywordHit (tl l) then
      match (List.range l.length).findSome? (fun i => P (l.drop i)) with
      | some t => .found t
      | none => scanLinesSpecClaimed P tl rest
    else scanLinesSpecClaimed P tl rest

/-- Amended scan semantics: on a keyword match, parses are attempted at byte
offsets strictly below the byte length of the lower-cased line, slicing the
original line (which panics when such an offset exceeds the original line's
byte length); the first offset in line order that parses is returned and the
scan stops at that first success. -/
def scanLinesSpecAmended (P : GoStr → Option Int) (tl : GoStr → GoStr) :
    List GoStr → ScanResult
  | [] => .extractionFailed
  | l :: rest =>
    if keywordHit (tl l) then
      match tryOffsetList P l (List.range (tl l).length) with
      | .found t => .found t
      | .panicked => .panicked
      | .extractionFailed => scanLinesSpecAmended P tl rest
    else scanLinesSpecAmended P tl rest

/-- Concatenation of n copies of a byte sequence. -/
def repBytes (n : Nat) (bs : List Nat) : List Nat :=
  (List.range n).flatMap fun _ => bs

/-- Concrete whois body line "expiry" ++ U+0130 x12 ++ "2020-01-02": 40
original bytes, while its Go lower-casing has only 28 bytes (each two-byte
İ becomes the one-byte i), so the code's offset loop, bounded by the
lower-cased length, never reaches the date at byte offset 30. -/
def lineDotted : GoStr :=
  asciiBytes "expiry" ++ repBytes 12 [0xC4, 0xB0] ++ asciiBytes "2020-01-02"

/-- Concrete whois body line "expiry" ++ U+023A x3: 12 original bytes, while
its Go lower-casing has 15 bytes (each two-byte Ⱥ becomes the three-byte ⱥ),
so the code's offset loop slices the original line at offset 13 > 12. -/
def lineStroked : GoStr := asciiBytes "expiry" ++ repBytes 3 [0xC8, 0xBA]

/-- Parser recognising exactly the byte string "2020-01-02", consistent with
dateparse.ParseAny on the slices arising from lineDotted: a suffix with
leading junk or a mid-rune first byte does not parse, the bare date does. -/
def parseOnlyDate (s : GoStr) : Option Int :=
  if s = asciiBytes "2020-01-02" then some 20200102 else none

/-- Parser that never succeeds, consistent with dateparse.ParseAny on bodies
containing no date-like text at any offset. -/
def parseNone (_ : GoStr) : Option Int := none

/-! Model of cert.go. -/

/-- One iteration of the minimum fold of cert.go lines 33-37: replace
minExpires by the certificate's NotAfter when minExpires.IsZero() or the
certificate's NotAfter is Before (strictly earlier than) minExpires. -/
def minStep (m c : Int) : Int := if m = 0 ∨ c < m then c else m

/-- Post-handshake computation of getCertExpiration (cert.go lines 26-39).
The dial and handshake are external primitives; chain holds the NotAfter
values of the peer certificate chain in order.  An empty chain is the error
return of lines 26-29; otherwise minExpires starts at the zero time and is
folded over the chain. -/
def getCertExpiration (chain : List Int) : Except Unit Int :=
  if chain.length = 0 then .error ()
  else .ok (chain.foldl minStep 0)

/-! Model of certexp.go. -/

/-- The Expiration record of certexp.go lines 109-116, with timestamps as
integers and Go errors as Option String. -/
structure Expiration where
  Name : String
  CertificateExpires : Int
  CertificateError : Option String
  Domain : String
  DomainExpires : Int
  DomainError : Option String
deriving DecidableEq

/-- Expiration.OK (certexp.go lines 136-150), verbatim: false on a
certificate error, a certificate expiration Before soon, a domain error, or a
domain expiration Before soon; true otherwise. -/
def Expiration.OK (e : Expiration) (soon : Int) : Bool :=
  if e.CertificateError.isSome then false
  else if e.CertificateExpires < soon then false
  else if e.DomainError.isSome then false
  else if e.DomainExpires < soon then false
  else true

/-- The set of unique registrable domains of certexp.go lines 163-171,
embedded as a duplicate-free list: the successful apex resolutions of the
batch's hostnames, deduplicated. -/
def queriedDomains (apex : String → Option String)
    (hostnames : List String) : List String :=
  (hostnames.filterMap apex).dedup

/-- Body of the inner update loop of certexp.go lines 175-180: a record
whose Domain equals the queried domain receives that domain's lookup
outcome. -/
def domUpdate (dom : String → Int × Option String) (d : String)
    (e : Expiration) : Expiration :=
  if e.Domain = d then
    { e with DomainExpires := (dom d).1, DomainError := (dom d).2 }
  else e

/-- getExpirations (certexp.go lines 152-183).  cert models the outcome pair
of getCertExpiration per hostname; apex models
publicsuffix.EffectiveTLDPlusOne (none is the error case, where Go continues
without setting rv[i].Domain); dom models the outcome pair of
getDomainExpiration per domain.  Go's domains map is embedded as the
duplicate-free list queriedDomains; Go iterates that map in unspecified
order, and the per-domain update below touches exactly the records whose
fixed Domain field equals the key, so every iteration order yields the same
result. -/
def getExpirations (cert : String → Int × Option String)
    (apex : String → Option String) (dom : String → Int × Option String)
    (hostnames : List String) : List Expiration :=
  let rv0 := hostnames.map fun h =>
    ({ Name := h, CertificateExpires := 0, CertificateError := none,
       Domain := "", DomainExpires := 0, DomainError := none } : Expiration)
  let rv1 := List.zipWith (fun h e =>
    { e with CertificateExpires := (cert h).1,
             CertificateError := (cert h).2 }) hostnames rv0
  let rv2 := List.zipWith (fun h e =>
    match apex h with
    | none => e
    | some d => { e with Domain := d }) hostnames rv1
  (queriedDomains apex hostnames).foldl (fun rv d =>
    rv.map (domUpdate dom d)) rv2

/-- Batch status of serveExpirations: 502 Bad Gateway (error), 417
Expectation Failed (imminent), or the untouched success status (healthy). -/
inductive BatchStatus where
  | error
  | imminent
  | healthy
deriving DecidableEq

/-- One iteration of the flag loop of serveExpirations (certexp.go lines
284-295); the first component is hasError, the second hasExpirationSoon. -/
def statusStep (soon : Int) (p : Bool × Bool) (e : Expiration) : Bool × Bool :=
  let q := if e.CertificateError.isSome then (true, p.2)
           else if e.CertificateExpires < soon then (p.1, true)
           else p
  if e.DomainError.isSome then (true, q.2)
  else if e.DomainExpires < soon then (q.1, true)
  else q

/-- Batch classification of serveExpirations (certexp.go lines 282-295 and
309-317): error when hasError, else imminent when hasExpirationSoon, else
healthy. -/
def classifyBatch (exps : List Expiration) (soon : Int) : BatchStatus :=
  let p := exps.foldl (statusStep soon) (false, false)
  if p.1 then .error else if p.2 then .imminent else .healthy

/-- A report has a hard certificate or registration error. -/
def errFlag (e : Expiration) : Bool :=
  e.CertificateError.isSome || e.DomainError.isSome

/-- A report has a certificate or registration expiration strictly before the
cutoff. -/
def soonFlag (soon : Int) (e : Expiration) : Bool :=
  decide (e.CertificateExpires < soon) || decide (e.DomainExpires < soon)

/-- Batch classification in the words of the claim: error when any report has
a certificate or registration error, else imminent when any report has an
expiration strictly before the cutoff, else healthy. -/
def classifyBatchSpec (exps : List Expiration) (soon : Int) : BatchStatus :=
  if exps.any errFlag then .error
  else if exps.any (soonFlag soon) then .imminent
  else .healthy

/-- Apex domain field a hostname ends up with in getExpirations: the
successful resolution, or the zero-value empty string when resolution
fails. -/
def apexD (apex : String → Option String) (h : String) : String :=
  match apex h with
  | some d => d
  | none => ""

/-- Closed form of the record getExpirations produces for one hostname, given
the batch's queried-domain list qd. -/
def reportFor (cert : String → Int × Option String)
    (apex : String → Option String) (dom : String → Int × Option String)
    (qd : List String) (h : String) : Expiration :=
  if apexD apex h ∈ qd then
    { Name := h, CertificateExpires := (cert h).1,
      CertificateError := (cert h).2, Domain := apexD apex h,
      DomainExpires := (dom (apexD apex h)).1,
      DomainError := (dom (apexD apex h)).2 }
  else
    { Name := h, CertificateExpires := (cert h).1,
      CertificateError := (cert h).2, Domain := apexD apex h,
      DomainExpires := 0, DomainError := none }



/-! Structural lemmas about the whois scan. -/

/-- The keyword loop of one line collapses: trying the offset loop once per
matching keyword equals trying it once when any keyword matches (a repeated
offset loop fails again deterministically, and a found date or a panic exits
at the first matching keyword). -/
theorem tryKeywords_eq_if (P : GoStr → Option Int) (orig lower : GoStr) :
    ∀ kws : List GoStr, tryKeywords P orig lower kws =
      if kws.any (fun kw => goContains lower kw) then
        tryOffsetList P orig (List.range lower.length)
      else .extractionFailed := by
  intro kws
  induction kws with
  | nil => simp [tryKeywords]
  | cons kw rest ih =>
    by_cases h : goContains lower kw = true
    · cases htl : tryOffsetList P orig (List.range lower.length) <;>
        simp [tryKeywords, h, htl, ih]
    · simp [tryKeywords, h, ih]

/-- The offset loop panics when every in-bounds offset in the list fails to
parse and some offset in the list exceeds the original line's length. -/
theorem tryOffsetList_panicked (P : GoStr → Option Int) (orig : GoStr) :
    ∀ l : List Nat, (∀ i ∈ l, i ≤ orig.length → P (orig.drop i) = none) →
      (∃ i ∈ l, orig.length < i) → tryOffsetList P orig l = .panicked := by
  intro l
  induction l with
  | nil =>
    intro _ h2
    rcases h2 with ⟨i, hi, _⟩
    simp at hi
  | cons j rest ih =>
    intro h1 h2
    by_cases hj : orig.length < j
    · simp [tryOffsetList, hj]
    · have hle : j ≤ orig.length := Nat.le_of_not_lt hj
      have hPj := h1 j (by simp) hle
      simp only [tryOffsetList, if_neg hj, hPj]
      apply ih
      · exact fun i hi hile => h1 i (List.mem_cons_of_mem _ hi) hile
      · rcases h2 with ⟨i, hi, hgt⟩
        rcases List.mem_cons.mp hi with rfl | hmem
        · omega
        · exact ⟨i, hmem, hgt⟩

/-- Claim C1 counterexample: on the one-line body lineDotted (the keyword
expiry, twelve İ characters, then the date 2020-01-02), with a parser that
accepts exactly that date (as dateparse does on the slices arising here),
getDomainExpiration's scan returns the extraction failure, while the claimed
semantics — a parse attempted at every byte offset of the original line —
finds the date at offset 30: the code's offset loop is bounded by the byte
length of the lower-cased line (28), which here is shorter than the original
line (40), so the claimed behaviour is false at this input. -/
theorem scan_missed_offset_counterexample :
    scanLines parseOnlyDate goToLowerFrag [lineDotted] =
      ScanResult.extractionFailed ∧
    scanLinesSpecClaimed parseOnlyDate goToLowerFrag [lineDotted] =
      ScanResult.found 20200102 ∧
    scanLines parseOnlyDate goToLowerFrag [lineDotted] ≠
      scanLinesSpecClaimed parseOnlyDate goToLowerFrag [lineDotted] := by
  refine ⟨by decide, by decide, by decide⟩

/-- Claim C1 (amended): for every parser, lower-casing function and body, the
scan of getDomainExpiration (whois.go lines 41-56) scans lines in order,
matches each lower-cased line against the fixed keyword list, and on a
keyword match attempts to parse a date at each byte offset of the original
line strictly below the byte length of the lower-cased line (panicking when
such an offset exceeds the original line's length); the first offset, in line
order, that yields a successfully parsed date is returned and scanning stops
immediately at that first success. -/
theorem scan_first_success_amended (P : GoStr → Option Int)
    (tl : GoStr → GoStr) (body : List GoStr) :
    scanLines P tl body = scanLinesSpecAmended P tl body := by
  induction body with
  | nil => rfl
  | cons l rest ih =>
    simp only [scanLines, scanLinesSpecAmended, tryKeywords_eq_if, keywordHit]
    by_cases h : (expirationKeywords.any fun kw => goContains (tl l) kw) = true
    · cases htl : tryOffsetList P l (List.range (tl l).length) <;>
        simp [h, htl, ih]
    · simp [h, ih]

/-- Claim C7 (code bug evidence): on the one-line body lineStroked (the
keyword expiry followed by three Ⱥ characters), a body in which no line
yields a parseable date at any offset (any parser failing everywhere, as
dateparse does on these digit-free slices), getDomainExpiration does not
return the extraction-failure error: its offset loop, bounded by the byte
length of the lower-cased line (15), slices the original 12-byte line at
offset 13 and panics. -/
theorem scan_no_date_panics (P : GoStr → Option Int) (hP : ∀ s, P s = none) :
    scanLines P goToLowerFrag [lineStroked] = ScanResult.panicked := by
  have hkw : (expirationKeywords.any fun kw =>
      goContains (goToLowerFrag lineStroked) kw) = true := by decide
  have hlen : (goToLowerFrag lineStroked).length = 15 := by decide
  have hpan := tryOffsetList_panicked P lineStroked (List.range 15)
      (fun i _ _ => hP _) ⟨13, by decide, by decide⟩
  simp only [scanLines, tryKeywords_eq_if, hkw, if_true, hlen, hpan]

/-- Witness for scan_no_date_panics at the concrete always-failing parser. -/
theorem scan_no_date_panics_witness :
    scanLines parseNone goToLowerFrag [lineStroked] = ScanResult.panicked :=
  scan_no_date_panics parseNone fun _ => rfl

/-- Claim C9 (code bug evidence): the offset loop of getDomainExpiration does
not stay within the bounds of the original line.  On the line lineStroked the
lower-cased copy has 15 bytes while the original has 12, and with any parser
that fails on the line's in-bounds suffixes the loop reaches offset 13 > 12
and the slice of the original line panics with an out-of-range index. -/
theorem scan_out_of_bounds_slice (P : GoStr → Option Int)
    (hP : ∀ i, i ≤ 12 → P (lineStroked.drop i) = none) :
    lineStroked.length = 12 ∧ (goToLowerFrag lineStroked).length = 15 ∧
    scanLines P goToLowerFrag [lineStroked] = ScanResult.panicked := by
  have hlen12 : lineStroked.length = 12 := by decide
  refine ⟨hlen12, by decide, ?_⟩
  have hkw : (expirationKeywords.any fun kw =>
      goContains (goToLowerFrag lineStroked) kw) = true := by decide
  have hlen : (goToLowerFrag lineStroked).length = 15 := by decide
  have hpan := tryOffsetList_panicked P lineStroked (List.range 15)
      (fun i _ hle => hP i (hlen12 ▸ hle)) ⟨13, by decide, by decide⟩
  simp only [scanLines, tryKeywords_eq_if, hkw, if_true, hlen, hpan]

/-- Witness for scan_out_of_bounds_slice at the concrete always-failing
parser. -/
theorem scan_out_of_bounds_slice_witness :
    lineStroked.length = 12 ∧ (goToLowerFrag lineStroked).length = 15 ∧
    scanLines parseNone goToLowerFrag [lineStroked] = ScanResult.panicked :=
  scan_out_of_bounds_slice parseNone fun _ _ => rfl

/-! Lemmas about getCertExpiration. -/

/-- Away from the zero-time sentinel, one fold step of cert.go computes the
binary minimum. -/
theorem minStep_eq_min (m c : Int) (hm : m ≠ 0) : minStep m c = min m c := by
  simp only [minStep, hm, false_or]
  rw [min_def]
  split_ifs <;> omega

/-- Away from the zero-time sentinel, the fold of cert.go computes the list
minimum fold. -/
theorem foldl_minStep_eq (l : List Int) : ∀ m, m ≠ 0 → (∀ c ∈ l, c ≠ 0) →
    l.foldl minStep m = l.foldl min m := by
  induction l with
  | nil => intro m _ _; rfl
  | cons c rest ih =>
    intro m hm hl
    have hc : c ≠ 0 := hl c (by simp)
    simp only [List.foldl_cons, minStep_eq_min m c hm]
    refine ih (min m c) ?_ fun x hx => hl x (List.mem_cons_of_mem _ hx)
    rcases min_choice m c with h | h <;> rw [h] <;> assumption

/-- Claim C2 counterexample: a two-certificate chain whose first NotAfter is
the zero time value and whose second is later.  getCertExpiration returns the
second NotAfter (the IsZero test of cert.go line 34 treats the zero minimum
as unset and overwrites it), while the chain minimum is the zero time, so the
minimum claim is false at this chain. -/
theorem cert_min_counterexample :
    getCertExpiration [0, 5] = Except.ok 5 ∧
    ([0, 5] : List Int).min? = some 0 ∧ (5 : Int) ≠ 0 :=
  ⟨rfl, by decide, by decide⟩

/-- Claim C2 (amended): for every certificate chain read from an established
TLS session in which no certificate's NotAfter equals the zero time value, a
non-empty chain (one whose minimum exists) yields, with no error, the minimum
NotAfter over all chain certificates, and the empty chain yields an error
record and never a zero-value success. -/
theorem cert_min_of_no_zero (chain : List Int) (m : Int)
    (hmin : chain.min? = some m) (hz : ∀ c ∈ chain, c ≠ 0) :
    getCertExpiration chain = Except.ok m ∧
    getCertExpiration ([] : List Int) = Except.error () := by
  refine ⟨?_, rfl⟩
  match chain, hmin, hz with
  | c :: rest, hmin, hz =>
    have hc : c ≠ 0 := hz c (by simp)
    have hrest : ∀ x ∈ rest, x ≠ 0 := fun x hx => hz x (List.mem_cons_of_mem _ hx)
    have hm : m = rest.foldl min c := by
      simpa [List.min?] using hmin.symm
    simp only [getCertExpiration, List.length_cons, List.foldl_cons]
    have h0 : minStep 0 c = c := by simp [minStep]
    rw [if_neg (by omega), h0, foldl_minStep_eq rest c hc hrest, hm]

/-- Witness for cert_min_of_no_zero at the concrete chain [7, 3, 9]. -/
theorem cert_min_of_no_zero_witness :
    getCertExpiration [7, 3, 9] = Except.ok 3 ∧
    getCertExpiration ([] : List Int) = Except.error () :=
  cert_min_of_no_zero [7, 3, 9] 3 (by decide) (by decide)

/-! Structural lemmas about getExpirations. -/

/-- Zipping a list with a map of itself is a map. -/
theorem zipWith_map_self {α β γ : Type} (f : α → β → γ) (g : α → β) :
    ∀ l : List α, List.zipWith f l (l.map g) = l.map fun a => f a (g a) := by
  intro l
  induction l with
  | nil => rfl
  | cons a rest ih => simp [ih]

/-- A fold of per-element maps is a map of per-element folds. -/
theorem foldl_map_fold {α β : Type} (g : α → β → β) :
    ∀ (ds : List α) (rv : List β),
      ds.foldl (fun rv d => rv.map (g d)) rv =
        rv.map fun e => ds.foldl (fun e d => g d e) e := by
  intro ds
  induction ds with
  | nil => intro rv; simp
  | cons d rest ih =>
    intro rv
    simp only [List.foldl_cons, ih, List.map_map]
    rfl

/-- Folding the per-domain updates over a record updates it once from its own
Domain when that Domain is queried, and not at all otherwise. -/
theorem foldl_domUpdate (dom : String → Int × Option String) :
    ∀ (ds : List String) (e : Expiration),
      ds.foldl (fun e d => domUpdate dom d e) e =
        if e.Domain ∈ ds then
          { e with DomainExpires := (dom e.Domain).1,
                   DomainError := (dom e.Domain).2 }
        else e := by
  intro ds
  induction ds with
  | nil => intro e; simp
  | cons d rest ih =>
    intro e
    simp only [List.foldl_cons]
    by_cases hd : e.Domain = d
    · have hup : domUpdate dom d e =
          { e with DomainExpires := (dom d).1, DomainError := (dom d).2 } := by
        simp [domUpdate, hd]
      rw [hup, ih]
      by_cases hm : e.Domain ∈ rest <;> simp [hd, hm]
    · have hup : domUpdate dom d e = e := by simp [domUpdate, hd]
      rw [hup, ih]
      simp [List.mem_cons, hd]

/-- Closed form of getExpirations: one reportFor record per hostname, in
input order. -/
theorem getExpirations_eq_map (cert : String → Int × Option String)
    (apex : String → Option String) (dom : String → Int × Option String)
    (hostnames : List String) :
    getExpirations cert apex dom hostnames =
      hostnames.map (reportFor cert apex dom (queriedDomains apex hostnames)) := by
  simp only [getExpirations]
  rw [zipWith_map_self, zipWith_map_self, foldl_map_fold, List.map_map]
  congr 1
  funext h
  simp only [Function.comp]
  rw [foldl_domUpdate]
  cases hah : apex h <;> simp [reportFor, apexD, hah]

/-- The Name field of a report is its hostname. -/
theorem reportFor_name (cert : String → Int × Option String)
    (apex : String → Option String) (dom : String → Int × Option String)
    (qd : List String) (h : String) :
    (reportFor cert apex dom qd h).Name = h := by
  simp only [reportFor]
  split <;> rfl

/-- The Domain field of a report is its hostname's apexD. -/
theorem reportFor_domain (cert : String → Int × Option String)
    (apex : String → Option String) (dom : String → Int × Option String)
    (qd : List String) (h : String) :
    (reportFor cert apex dom qd h).Domain = apexD apex h := by
  simp only [reportFor]
  split <;> rfl

/-- The registration fields of a report are a function of its Domain field
and the queried-domain list. -/
theorem reportFor_reg (cert : String → Int × Option String)
    (apex : String → Option String) (dom : String → Int × Option String)
    (qd : List String) (h : String) :
    (reportFor cert apex dom qd h).DomainExpires
        = (if apexD apex h ∈ qd then (dom (apexD apex h)).1 else 0) ∧
      (reportFor cert apex dom qd h).DomainError
        = (if apexD apex h ∈ qd then (dom (apexD apex h)).2 else none) := by
  simp only [reportFor]
  split <;> simp_all

/-- Claim C3: for every ordered input list of hostnames and every outcome of
the external lookups, getExpirations returns exactly one report per input
hostname, of the same length and in the same order as the input (the i-th
report's Name is the i-th hostname); it is a total function, so individual
lookup failures are only encoded in the per-record error fields and the batch
never fails wholesale. -/
theorem getExpirations_one_report_per_hostname
    (cert : String → Int × Option String) (apex : String → Option String)
    (dom : String → Int × Option String) (hostnames : List String) :
    (getExpirations cert apex dom hostnames).length = hostnames.length ∧
    (getExpirations cert apex dom hostnames).map (fun e => e.Name) = hostnames := by
  constructor
  · rw [getExpirations_eq_map, List.length_map]
  · rw [getExpirations_eq_map, List.map_map]
    have hc : ((fun e => e.Name) ∘
        reportFor cert apex dom (queriedDomains apex hostnames)) = fun h => h :=
      funext fun h => reportFor_name cert apex dom (queriedDomains apex hostnames) h
    rw [hc]
    exact List.map_id' hostnames

/-- Claim C4: the queried-domain list getExpirations performs its
registration lookups over is duplicate-free and contains exactly the apex
domains derived from the batch's hostnames — so each distinct derived apex is
looked up exactly once, independent of how many hostnames map to it — and any
two reports of the batch with the same Domain carry identical
RegistrationRecord values (equal DomainExpires and equal DomainError). -/
theorem one_lookup_per_apex_and_shared_record
    (cert : String → Int × Option String) (apex : String → Option String)
    (dom : String → Int × Option String) (hostnames : List String) :
    (queriedDomains apex hostnames).Nodup ∧
    (∀ d, d ∈ queriedDomains apex hostnames ↔
      ∃ h ∈ hostnames, apex h = some d) ∧
    (∀ d, d ∈ queriedDomains apex hostnames →
      (queriedDomains apex hostnames).count d = 1) ∧
    (∀ e ∈ getExpirations cert apex dom hostnames,
      ∀ e2 ∈ getExpirations cert apex dom hostnames,
        e.Domain = e2.Domain →
          e.DomainExpires = e2.DomainExpires ∧
          e.DomainError = e2.DomainError) := by
  refine ⟨List.nodup_dedup _, ?_, ?_, ?_⟩
  · intro d
    simp [queriedDomains, List.mem_dedup, List.mem_filterMap]
  · intro d hd
    exact List.count_eq_one_of_mem (List.nodup_dedup _) hd
  · intro e he e2 he2 hdom
    rw [getExpirations_eq_map] at he he2
    rcases List.mem_map.mp he with ⟨h, _, rfl⟩
    rcases List.mem_map.mp he2 with ⟨h2, _, rfl⟩
    have hD : apexD apex h = apexD apex h2 := by
      rw [← reportFor_domain cert apex dom (queriedDomains apex hostnames) h,
          ← reportFor_domain cert apex dom (queriedDomains apex hostnames) h2,
          hdom]
    have r1 := reportFor_reg cert apex dom (queriedDomains apex hostnames) h
    have r2 := reportFor_reg cert apex dom (queriedDomains apex hostnames) h2
    rw [r1.1, r1.2, r2.1, r2.2, hD]
    exact ⟨rfl, rfl⟩

/-- Entry of getExpirations for a hostname whose apex resolution fails: the
report keeps its input position and has an empty Domain, unset registration
fields, and the independently computed certificate outcome.  The hypothesis
that apex never succeeds with the empty string reflects
publicsuffix.EffectiveTLDPlusOne, which never returns an empty domain
together with a nil error. -/
theorem getExpirations_failed_apex
    (cert : String → Int × Option String) (apex : String → Option String)
    (dom : String → Int × Option String) (hostnames : List String)
    (i : Nat) (h : String) (hA : ∀ x, apex x ≠ some "")
    (hh : hostnames[i]? = some h) (hfail : apex h = none) :
    (getExpirations cert apex dom hostnames)[i]? = some
      { Name := h, CertificateExpires := (cert h).1,
        CertificateError := (cert h).2, Domain := "",
        DomainExpires := 0, DomainError := none } := by
  have hnq : "" ∉ queriedDomains apex hostnames := by
    intro hmem
    rw [queriedDomains, List.mem_dedup, List.mem_filterMap] at hmem
    rcases hmem with ⟨x, _, hx⟩
    exact hA x hx
  rw [getExpirations_eq_map, List.getElem?_map, hh]
  have hd0 : apexD apex h = "" := by simp [apexD, hfail]
  simp [reportFor, hd0, hnq]

/-- Claim C8: for every hostname whose apex-domain resolution fails, no
registration lookup runs for it (an unresolvable hostname contributes nothing
to the queried-domain list), but it is not dropped from the batch: its report
still appears at its input position with an empty ApexDomain, a
RegistrationRecord left unset (zero DomainExpires and nil DomainError), and a
CertificateRecord that is still the hostname's independently computed
certificate outcome; batch length is preserved. -/
theorem failed_apex_report_kept
    (cert : String → Int × Option String) (apex : String → Option String)
    (dom : String → Int × Option String) (hostnames : List String)
    (i : Nat) (h : String) (hA : ∀ x, apex x ≠ some "")
    (hh : hostnames[i]? = some h) (hfail : apex h = none) :
    (getExpirations cert apex dom hostnames).length = hostnames.length ∧
    (∀ d, d ∈ queriedDomains apex hostnames → apex h ≠ some d) ∧
    (getExpirations cert apex dom hostnames)[i]? = some
      { Name := h, CertificateExpires := (cert h).1,
        CertificateError := (cert h).2, Domain := "",
        DomainExpires := 0, DomainError := none } := by
  refine ⟨?_, ?_, getExpirations_failed_apex cert apex dom hostnames i h hA hh hfail⟩
  · rw [getExpirations_eq_map, List.length_map]
  · intro d _ hcontra
    rw [hfail] at hcontra
    cases hcontra

/-- Claim C5: per-report evaluation (Expiration.OK) returns not-healthy
exactly when the certificate record has an error, or the certificate
expiration is strictly before the cutoff, or the registration record has an
error, or the registration expiration is strictly before the cutoff; at the
boundary, an error-free record whose expirations equal the cutoff T is
healthy, and one whose registration or certificate expiration is T minus one
nanosecond is not-healthy. -/
theorem report_ok_iff :
    (∀ (e : Expiration) (soon : Int),
      Expiration.OK e soon = false ↔
        (e.CertificateError.isSome = true ∨ e.CertificateExpires < soon ∨
         e.DomainError.isSome = true ∨ e.DomainExpires < soon)) ∧
    (∀ T : Int, Expiration.OK
      { Name := "h", CertificateExpires := T, CertificateError := none,
        Domain := "d", DomainExpires := T, DomainError := none } T = true) ∧
    (∀ T : Int, Expiration.OK
      { Name := "h", CertificateExpires := T, CertificateError := none,
        Domain := "d", DomainExpires := T - 1, DomainError := none } T = false) ∧
    (∀ T : Int, Expiration.OK
      { Name := "h", CertificateExpires := T - 1, CertificateError := none,
        Domain := "d", DomainExpires := T, DomainError := none } T = false) := by
  refine ⟨?_, ?_, ?_, ?_⟩
  · intro e soon
    simp only [Expiration.OK]
    split_ifs <;> simp_all
  · intro T
    simp [Expiration.OK]
  · intro T
    simp [Expiration.OK]
  · intro T
    simp [Expiration.OK]

/-! Lemmas about the batch flag loop of serveExpirations. -/

/-- One step of the flag loop ors in the per-report error flag and the
per-report error-free-but-expiring-soon flag. -/
theorem statusStep_eq (soon : Int) (p : Bool × Bool) (e : Expiration) :
    statusStep soon p e =
      (p.1 || errFlag e,
       p.2 || ((!e.CertificateError.isSome &&
                 decide (e.CertificateExpires < soon)) ||
               (!e.DomainError.isSome && decide (e.DomainExpires < soon)))) := by
  rcases p with ⟨a, b⟩
  simp only [statusStep, errFlag]
  cases e.CertificateError <;> cases e.DomainError <;>
    by_cases h1 : e.CertificateExpires < soon <;>
    by_cases h2 : e.DomainExpires < soon <;>
    simp [h1, h2]

/-- The flag loop computes, over any initial flags, the disjunctions of the
per-report flags. -/
theorem foldl_statusStep (soon : Int) :
    ∀ (l : List Expiration) (a b : Bool),
      l.foldl (statusStep soon) (a, b) =
        (a || l.any errFlag,
         b || l.any fun e =>
            (!e.CertificateError.isSome && decide (e.CertificateExpires < soon)) ||
            (!e.DomainError.isSome && decide (e.DomainExpires < soon))) := by
  intro l
  induction l with
  | nil => intro a b; simp
  | cons e rest ih =>
    intro a b
    rw [List.foldl_cons, statusStep_eq, ih]
    simp [List.any_cons, Bool.or_assoc]

/-- With no hard errors in the batch, the expiring-soon flag computed by the
loop coincides with the claim's any-expiration-before-cutoff condition. -/
theorem any_soft_eq_any_soon (soon : Int) :
    ∀ l : List Expiration, (∀ x ∈ l, errFlag x = false) →
      (l.any fun e =>
        (!e.CertificateError.isSome && decide (e.CertificateExpires < soon)) ||
        (!e.DomainError.isSome && decide (e.DomainExpires < soon))) =
      l.any (soonFlag soon) := by
  intro l
  induction l with
  | nil => intro _; rfl
  | cons e rest ih =>
    intro hall
    have he : e.CertificateError = none ∧ e.DomainError = none := by
      simpa [errFlag] using hall e (by simp)
    have hrest := ih fun x hx => hall x (List.mem_cons_of_mem _ hx)
    rw [List.any_cons, List.any_cons, hrest]
    simp [he.1, he.2, soonFlag]

/-- Claim C6: for every batch of reports and cutoff, the classification of
serveExpirations is error when some report has a hard certificate or
registration error; otherwise imminent when some report has a certificate or
registration expiration strictly before the cutoff; otherwise healthy — with
error taking precedence over imminent. -/
theorem classify_batch_eq_spec (exps : List Expiration) (soon : Int) :
    classifyBatch exps soon = classifyBatchSpec exps soon := by
  simp only [classifyBatch, foldl_statusStep, Bool.false_or, classifyBatchSpec]
  by_cases herr : exps.any errFlag = true
  · simp [herr]
  · have hallf : ∀ x ∈ exps, errFlag x = false := by
      have hfalse := List.any_eq_false.mp (Bool.eq_false_iff.mpr herr)
      intro x hx
      simpa using hfalse x hx
    rw [any_soft_eq_any_soon soon exps hallf]

/-- Claim C10: a hostname whose apex-domain resolution fails yields a report
with a nil DomainError and a zero-value DomainExpires timestamp; for every
cutoff strictly after the zero timestamp, Expiration.OK returns not-healthy
for that report — such a hostname can never be classified healthy — and,
absent a certificate error, the report contributes imminent rather than error
status to the batch. -/
theorem failed_apex_never_healthy
    (cert : String → Int × Option String) (apex : String → Option String)
    (dom : String → Int × Option String) (hostnames : List String)
    (i : Nat) (h : String) (cutoff : Int) (hA : ∀ x, apex x ≠ some "")
    (hh : hostnames[i]? = some h) (hfail : apex h = none)
    (hcut : (0 : Int) < cutoff) :
    ∃ e, (getExpirations cert apex dom hostnames)[i]? = some e ∧
      e.DomainError = none ∧ e.DomainExpires = 0 ∧
      Expiration.OK e cutoff = false ∧
      (e.CertificateError = none →
        classifyBatch [e] cutoff = BatchStatus.imminent) := by
  refine ⟨_, getExpirations_failed_apex cert apex dom hostnames i h hA hh hfail,
    rfl, rfl, ?_, ?_⟩
  · simp [Expiration.OK, hcut]
  · intro hce
    have hce2 : (cert h).2 = none := by simpa using hce
    simp [classifyBatch, List.foldl_cons, statusStep_eq, errFlag, hce2, hcut]

/-! Concrete external-lookup outcomes used by the witnesses. -/

/-- Concrete certificate-lookup outcome: every hostname succeeds with
NotAfter 100 and a nil error. -/
def certW : String → Int × Option String := fun _ => (100, none)

/-- Concrete apex resolver: the two example hostnames resolve to the shared
apex example.com, everything else fails. -/
def apexW : String → Option String := fun h =>
  if h = "a.example.com" then some "example.com"
  else if h = "b.example.com" then some "example.com"
  else none

/-- Concrete registration-lookup outcome: every domain succeeds with
expiration 200 and a nil error. -/
def domW : String → Int × Option String := fun _ => (200, none)

/-- Concrete three-hostname batch; the third hostname has no derivable apex
domain. -/
def hostsW : List String := ["a.example.com", "b.example.com", "bad..host"]

/-- Witness for one_lookup_per_apex_and_shared_record on the concrete batch:
the shared apex example.com is counted exactly once among the performed
lookups, and the two reports that share it carry identical registration
fields. -/
theorem one_lookup_per_apex_and_shared_record_witness :
    (queriedDomains apexW hostsW).count "example.com" = 1 ∧
    ("example.com" ∈ queriedDomains apexW hostsW ↔
      ∃ h ∈ hostsW, apexW h = some "example.com") ∧
    ({ Name := "a.example.com", CertificateExpires := 100,
       CertificateError := none, Domain := "example.com",
       DomainExpires := 200, DomainError := none : Expiration }.DomainExpires =
     { Name := "b.example.com", CertificateExpires := 100,
       CertificateError := none, Domain := "example.com",
       DomainExpires := 200, DomainError := none : Expiration }.DomainExpires) :=
  ⟨(one_lookup_per_apex_and_shared_record certW apexW domW hostsW).2.2.1
      "example.com" (by decide),
   (one_lookup_per_apex_and_shared_record certW apexW domW hostsW).2.1
      "example.com",
   ((one_lookup_per_apex_and_shared_record certW apexW domW hostsW).2.2.2
      _ (by decide) _ (by decide) (by decide)).1⟩

/-- Witness for failed_apex_report_kept on the concrete batch: the third
hostname has no apex, yet its report is present at index 2 with an empty
Domain, unset registration fields, and its certificate outcome. -/
theorem failed_apex_report_kept_witness :
    (getExpirations certW apexW domW hostsW).length = hostsW.length ∧
    (∀ d, d ∈ queriedDomains apexW hostsW → apexW "bad..host" ≠ some d) ∧
    (getExpirations certW apexW domW hostsW)[2]? = some
      { Name := "bad..host", CertificateExpires := (certW "bad..host").1,
        CertificateError := (certW "bad..host").2, Domain := "",
        DomainExpires := 0, DomainError := none } :=
  failed_apex_report_kept certW apexW domW hostsW 2 "bad..host"
    (by intro x; simp only [apexW]; split_ifs <;> simp) (by decide) (by decide)

/-- Witness for failed_apex_never_healthy on the concrete batch at cutoff
1000. -/
theorem failed_apex_never_healthy_witness :
    ∃ e, (getExpirations certW apexW domW hostsW)[2]? = some e ∧
      e.DomainError = none ∧ e.DomainExpires = 0 ∧
      Expiration.OK e 1000 = false ∧
      (e.CertificateError = none →
        classifyBatch [e] 1000 = BatchStatus.imminent) :=
  failed_apex_never_healthy certW apexW domW hostsW 2 "bad..host" 1000
    (by intro x; simp only [apexW]; split_ifs <;> simp) (by decide) (by decide)
    (by decide)

/-- Keyword matching is case-insensitive: the body line
"Registry Expiry Date: 2020-01-02" matches the keyword expiry through its
lower-cased copy and the embedded date is extracted. -/
theorem scan_case_insensitive_example :
    scanLines parseOnlyDate goToLowerFrag
      [asciiBytes "Registry Expiry Date: 2020-01-02"] =
      ScanResult.found 20200102 := by
  decide
end ExpireSh
